import Mathlib

/-!
Shallow embedding of the Letter Arrangement Game implemented by the
`LetterBank` React component in src/components/drawing/DrawingCanvas.tsx
(second component in the file).  The component state consists of
`placedLetters : (string | null)[]`, `availableLetters : string[]`,
`isComplete : boolean` and `isCorrect : boolean`, together with the prop
`targetWord : string`.  The mutating operations are `handleLetterClick`
(place from the bank into the first empty slot, or return a slot letter to
the bank) and `handleReset`; a `useEffect` hook re-validates the word after
every change of `placedLetters` and emits the `onComplete` completion
signal when all slots are filled.
-/

namespace LetterBank

/-- Model of the JavaScript `String.prototype.toLowerCase` as used on the
ASCII words of this application: lower-case each character. -/
def toLowerCase (s : String) : String :=
  String.mk (s.data.map Char.toLower)

/-- State of one `LetterBank` component instance: the `targetWord` prop and
the four `React.useState` fields. -/
structure GameState where
  targetWord : String
  availableLetters : List Char
  placedLetters : List (Option Char)
  isComplete : Bool
  isCorrect : Bool
deriving Repr, DecidableEq

/-- Model of `placedLetters.findIndex((l) => l === null)` from
handleLetterClick (DrawingCanvas.tsx line 328): index of the first empty
slot, `none` when every slot is occupied (the source returns -1 there). -/
def findIndexNone : List (Option Char) → Option Nat
  | [] => none
  | a :: t => if a.isNone then some 0 else (findIndexNone t).map (· + 1)

/-- One step of the randomized insertion used to model the shuffle: insert
the character somewhere in the list, each position decided by the next coin
of the random stream; returns the new list and the unused coins. -/
def insertRand (c : Char) : List Char → List Bool → List Char × List Bool
  | [], coins => ([c], coins)
  | x :: xs, [] => (c :: x :: xs, [])
  | x :: xs, b :: coins =>
    if b then (c :: x :: xs, coins)
    else
      let p := insertRand c xs coins
      (x :: p.1, p.2)

/-- Helper for `shuffle`, threading the coin stream through the insertions. -/
def shuffleAux : List Char → List Bool → List Char × List Bool
  | [], coins => ([], coins)
  | x :: xs, coins =>
    let p := shuffleAux xs coins
    insertRand x p.1 p.2

/-- Model of the Shuffler
`[...letters].sort(() => Math.random() - 0.5)`
(DrawingCanvas.tsx lines 291-292 and 349-350).  A JavaScript sort driven by
an inconsistent random comparator returns an unspecified permutation of its
input; the randomness is modelled as a stream of coin flips driving a
randomized insertion, so every coin stream yields some permutation. -/
def shuffle (letters : List Char) (coins : List Bool) : List Char :=
  (shuffleAux letters coins).1

/-- Model of `handleLetterClick(letter, fromBank, index)`
(DrawingCanvas.tsx lines 323-346).  `fromBank = true`: place the letter
into the first empty slot and `splice` one element out of the bank at
`index` (a no-op when no empty slot exists, i.e. `findIndex` returned -1;
`splice` at an out-of-range index removes nothing, as `List.eraseIdx`
does).  `fromBank = false`: clear slot `index` and append the letter to the
end of the bank. -/
def handleLetterClick (letter : Char) (fromBank : Bool) (index : Nat)
    (s : GameState) : GameState :=
  if fromBank then
    match findIndexNone s.placedLetters with
    | some emptyIndex =>
      { s with placedLetters := s.placedLetters.set emptyIndex (some letter),
               availableLetters := s.availableLetters.eraseIdx index }
    | none => s
  else
    { s with placedLetters := s.placedLetters.set index none,
             availableLetters := s.availableLetters ++ [letter] }

/-- Model of the validation `useEffect` (DrawingCanvas.tsx lines 300-321):
when every slot is occupied, join the slot letters, compare lower-cased
with the lower-cased target word, record the outcome in
`isComplete`/`isCorrect` and emit the completion signal
(`onComplete(correct)`, returned here as `some correct`); otherwise clear
both flags and emit nothing. -/
def checkCompletion (s : GameState) : GameState × Option Bool :=
  if s.placedLetters.all Option.isSome then
    let spelledWord := String.mk (s.placedLetters.filterMap id)
    let correct := toLowerCase spelledWord == toLowerCase s.targetWord
    ({ s with isComplete := true, isCorrect := correct }, some correct)
  else
    ({ s with isComplete := false, isCorrect := false }, none)

/-- Model of the mount effect (DrawingCanvas.tsx lines 290-297): shuffle the
target word into the bank and create one empty slot per character. -/
def initState (targetWord : String) (coins : List Bool) : GameState :=
  { targetWord := targetWord,
    availableLetters := shuffle targetWord.data coins,
    placedLetters := List.replicate targetWord.length none,
    isComplete := false,
    isCorrect := false }

/-- Starting a session with a target word: mount the component and run the
validation effect once (the effect also fires on mount).  Returns the state
and the completion signal, if any was emitted. -/
def start (targetWord : String) (coins : List Bool) : GameState × Option Bool :=
  checkCompletion (initState targetWord coins)

/-- The state right after `start`. -/
def startState (targetWord : String) (coins : List Bool) : GameState :=
  (start targetWord coins).1

/-- Model of `handleReset` (DrawingCanvas.tsx lines 348-356): re-shuffle the
bank, clear every slot and both flags. -/
def handleReset (s : GameState) (coins : List Bool) : GameState :=
  { s with availableLetters := shuffle s.targetWord.data coins,
           placedLetters := List.replicate s.targetWord.length none,
           isComplete := false,
           isCorrect := false }

/-- The place operation as invoked from the bank buttons
(DrawingCanvas.tsx line 427): the clicked tile is
`availableLetters[index]`, so the call is
`handleLetterClick(availableLetters[index], true, index)`. -/
def placeLetter (s : GameState) (i : Nat) : GameState :=
  handleLetterClick (s.availableLetters.getD i ' ') true i s

/-- The remove operation as invoked from the slot tiles
(DrawingCanvas.tsx line 380): the click handler is guarded by
`letter && ...`, so nothing happens on an empty slot; on an occupied slot
the call is `handleLetterClick(letter, false, index)` with the letter held
by the slot. -/
def removeLetter (s : GameState) (i : Nat) : GameState :=
  match s.placedLetters.getD i none with
  | some c => handleLetterClick c false i s
  | none => s

/-- A user operation on the game: place a bank tile or remove a slot letter. -/
inductive Op where
  | place (bankIndex : Nat)
  | remove (slotIndex : Nat)
deriving Repr, DecidableEq

/-- Validity of an operation in a state, as in the spec: a place names a
tile currently in the bank (and the handler itself requires an empty slot),
a remove names a slot currently holding a letter. -/
def validOp (s : GameState) : Op → Bool
  | .place i => decide (i < s.availableLetters.length)
      && s.placedLetters.any Option.isNone
  | .remove i => decide (i < s.placedLetters.length)
      && (s.placedLetters.getD i none).isSome

/-- Apply one operation and then the validation effect (which runs after
every `placedLetters` update). -/
def applyOp (s : GameState) : Op → GameState
  | .place i => (checkCompletion (placeLetter s i)).1
  | .remove i => (checkCompletion (removeLetter s i)).1

/-- Run a sequence of operations. -/
def runOps (s : GameState) (ops : List Op) : GameState :=
  ops.foldl applyOp s

/-- A sequence of operations each valid in the state it is applied to. -/
def validSeq : GameState → List Op → Bool
  | _, [] => true
  | s, op :: ops => validOp s op && validSeq (applyOp s op) ops

/-- Number of occupied placement slots. -/
def occupiedCount (slots : List (Option Char)) : Nat :=
  slots.countP Option.isSome

/-- The central invariant of the spec:
size of the tile pool plus number of occupied slots equals the length of
the target word. -/
def poolInv (s : GameState) : Prop :=
  s.availableLetters.length + occupiedCount s.placedLetters
    = s.targetWord.length

instance (s : GameState) : Decidable (poolInv s) := by
  unfold poolInv; infer_instance

/-- Observable equality of two component states: same slots, same bank as a
multiset of characters, same flags (the bank is rendered as an unordered
pool of tiles). -/
def obsEq (s t : GameState) : Prop :=
  s.placedLetters = t.placedLetters
    ∧ (s.availableLetters : Multiset Char) = (t.availableLetters : Multiset Char)
    ∧ s.isComplete = t.isComplete
    ∧ s.isCorrect = t.isCorrect

end LetterBank

namespace LetterBank

theorem checkCompletion_fst_targetWord (s : GameState) :
    (checkCompletion s).1.targetWord = s.targetWord := by
  unfold checkCompletion
  split <;> rfl

theorem checkCompletion_fst_availableLetters (s : GameState) :
    (checkCompletion s).1.availableLetters = s.availableLetters := by
  unfold checkCompletion
  split <;> rfl

theorem checkCompletion_fst_placedLetters (s : GameState) :
    (checkCompletion s).1.placedLetters = s.placedLetters := by
  unfold checkCompletion
  split <;> rfl

theorem insertRand_fst_perm (c : Char) (l : List Char) :
    ∀ (coins : List Bool), List.Perm (insertRand c l coins).1 (c :: l) := by
  induction l with
  | nil => intro coins; simp [insertRand]
  | cons x xs ih =>
    intro coins
    cases coins with
    | nil => simp [insertRand]
    | cons b coins =>
      by_cases hb : b
      · simp [insertRand, hb]
      · simp only [insertRand, hb, Bool.false_eq_true, if_false]
        exact ((ih coins).cons x).trans (List.Perm.swap c x xs)

theorem shuffleAux_fst_perm (l : List Char) :
    ∀ (coins : List Bool), List.Perm (shuffleAux l coins).1 l := by
  induction l with
  | nil => intro coins; simp [shuffleAux]
  | cons x xs ih =>
    intro coins
    have h1 := insertRand_fst_perm x (shuffleAux xs coins).1 (shuffleAux xs coins).2
    have h2 : List.Perm (x :: (shuffleAux xs coins).1) (x :: xs) := (ih coins).cons x
    simpa only [shuffleAux] using h1.trans h2

theorem shuffle_perm_source (l : List Char) (coins : List Bool) :
    List.Perm (shuffle l coins) l :=
  shuffleAux_fst_perm l coins

theorem shuffle_length (l : List Char) (coins : List Bool) :
    (shuffle l coins).length = l.length :=
  (shuffle_perm_source l coins).length_eq

theorem occupiedCount_replicate (n : Nat) :
    occupiedCount (List.replicate n none) = 0 := by
  unfold occupiedCount
  rw [List.countP_eq_zero]
  intro a ha
  rw [List.eq_of_mem_replicate ha]
  simp

theorem getD_set_self (l : List (Option Char)) (i : Nat) (v : Option Char)
    (h : i < l.length) : (l.set i v).getD i none = v := by
  induction l generalizing i with
  | nil => simp at h
  | cons a t ih =>
    cases i with
    | zero => rfl
    | succ i => exact ih i (by simpa using h)

theorem getD_set_ne (l : List (Option Char)) (i j : Nat) (v : Option Char)
    (h : i ≠ j) : (l.set i v).getD j none = l.getD j none := by
  induction l generalizing i j with
  | nil => rfl
  | cons a t ih =>
    cases i with
    | zero =>
      cases j with
      | zero => exact absurd rfl h
      | succ j => rfl
    | succ i =>
      cases j with
      | zero => rfl
      | succ j => exact ih i j (fun he => h (by rw [he]))

theorem occupied_set_some (l : List (Option Char)) (i : Nat) (c : Char) :
    i < l.length → l.getD i none = none →
    occupiedCount (l.set i (some c)) = occupiedCount l + 1 := by
  induction l generalizing i with
  | nil => intro h; simp at h
  | cons a t ih =>
    intro hlt hnone
    cases i with
    | zero =>
      have ha : a = none := hnone
      subst ha
      simp [occupiedCount, List.countP_cons]
    | succ i =>
      have h1 : i < t.length := by simpa using hlt
      have h2 : t.getD i none = none := hnone
      have := ih i h1 h2
      simp only [List.set, occupiedCount, List.countP_cons] at *
      omega

theorem occupied_set_none (l : List (Option Char)) (i : Nat) (c : Char) :
    i < l.length → l.getD i none = some c →
    occupiedCount (l.set i none) + 1 = occupiedCount l := by
  induction l generalizing i with
  | nil => intro h; simp at h
  | cons a t ih =>
    intro hlt hsome
    cases i with
    | zero =>
      have ha : a = some c := hsome
      subst ha
      simp [occupiedCount, List.countP_cons]
    | succ i =>
      have h1 : i < t.length := by simpa using hlt
      have h2 : t.getD i none = some c := hsome
      have := ih i h1 h2
      simp only [List.set, occupiedCount, List.countP_cons] at *
      omega

theorem findIndexNone_spec (l : List (Option Char)) :
    ∀ (k : Nat), findIndexNone l = some k →
    k < l.length ∧ l.getD k none = none := by
  induction l with
  | nil => intro k hk; simp [findIndexNone] at hk
  | cons a t ih =>
    intro k hk
    by_cases ha : a.isNone
    · have hk0 : k = 0 := by
        simp [findIndexNone, ha] at hk
        omega
      subst hk0
      refine ⟨by simp, ?_⟩
      have : a = none := Option.isNone_iff_eq_none.mp ha
      simp [this]
    · simp only [findIndexNone, ha, Bool.false_eq_true, if_false,
        Option.map_eq_some'] at hk
      obtain ⟨m, hm, hmk⟩ := hk
      obtain ⟨h1, h2⟩ := ih m hm
      subst hmk
      exact ⟨by simpa using h1, by simpa using h2⟩

theorem findIndexNone_of_any (l : List (Option Char)) :
    l.any Option.isNone = true → ∃ k, findIndexNone l = some k := by
  induction l with
  | nil => intro h; simp at h
  | cons a t ih =>
    intro h
    by_cases ha : a.isNone
    · exact ⟨0, by simp [findIndexNone, ha]⟩
    · have ht : t.any Option.isNone = true := by
        simp only [List.any_cons, Bool.or_eq_true] at h
        exact h.resolve_left ha
      obtain ⟨k, hk⟩ := ih ht
      exact ⟨k + 1, by simp [findIndexNone, ha, hk]⟩

theorem findIndexNone_eq_none_of_all (l : List (Option Char)) :
    l.all Option.isSome = true → findIndexNone l = none := by
  induction l with
  | nil => intro _; rfl
  | cons a t ih =>
    intro h
    simp only [List.all_cons, Bool.and_eq_true] at h
    have ha : ¬ a.isNone := by
      cases a with
      | none => simp at h
      | some c => simp
    simp [findIndexNone, ha, ih h.2]

theorem findIndexNone_min (l : List (Option Char)) :
    ∀ (k : Nat), findIndexNone l = some k →
    ∀ (m : Nat), m < k → (l.getD m none).isSome = true := by
  induction l with
  | nil => intro k hk; simp [findIndexNone] at hk
  | cons a t ih =>
    intro k hk m hm
    by_cases ha : a.isNone
    · simp [findIndexNone, ha] at hk
      omega
    · simp only [findIndexNone, ha, Bool.false_eq_true, if_false,
        Option.map_eq_some'] at hk
      obtain ⟨j, hj, hjk⟩ := hk
      cases m with
      | zero =>
        cases a with
        | none => simp at ha
        | some c => simp
      | succ m =>
        have : m < j := by omega
        simpa using ih j hj m this

theorem getD_isSome_of_all (l : List (Option Char)) :
    l.all Option.isSome = true → ∀ (i : Nat), i < l.length →
    (l.getD i none).isSome = true := by
  induction l with
  | nil => intro _ i hi; simp at hi
  | cons a t ih =>
    intro h i hi
    simp only [List.all_cons, Bool.and_eq_true] at h
    cases i with
    | zero => simpa using h.1
    | succ i => simpa using ih h.2 i (by simpa using hi)

theorem length_eraseIdx_lt (l : List Char) (i : Nat) (h : i < l.length) :
    (l.eraseIdx i).length + 1 = l.length := by
  induction l generalizing i with
  | nil => simp at h
  | cons a t ih =>
    cases i with
    | zero => simp [List.eraseIdx]
    | succ i =>
      have h' : i < t.length := by simpa using h
      have := ih i h'
      simp only [List.eraseIdx, List.length_cons]
      omega

theorem eraseIdx_append_getD_perm (l : List Char) (i : Nat) (h : i < l.length) :
    List.Perm (l.eraseIdx i ++ [l.getD i ' ']) l := by
  induction l generalizing i with
  | nil => simp at h
  | cons a t ih =>
    cases i with
    | zero =>
      simp only [List.eraseIdx, List.getD_cons_zero]
      exact List.perm_append_singleton a t
    | succ i =>
      have h' : i < t.length := by simpa using h
      have := (ih i h').cons a
      simpa [List.eraseIdx] using this

end LetterBank

namespace LetterBank

theorem poolInv_checkCompletion (s : GameState) :
    poolInv (checkCompletion s).1 ↔ poolInv s := by
  unfold poolInv
  rw [checkCompletion_fst_targetWord, checkCompletion_fst_availableLetters,
    checkCompletion_fst_placedLetters]

theorem validOp_poolInv (s : GameState) (op : Op) (hv : validOp s op = true)
    (hinv : poolInv s) : poolInv (applyOp s op) := by
  cases op with
  | place i =>
    simp only [validOp, Bool.and_eq_true, decide_eq_true_eq] at hv
    obtain ⟨hi, hany⟩ := hv
    obtain ⟨k, hk⟩ := findIndexNone_of_any s.placedLetters hany
    obtain ⟨hklt, hknone⟩ := findIndexNone_spec s.placedLetters k hk
    show poolInv (checkCompletion (placeLetter s i)).1
    rw [poolInv_checkCompletion]
    unfold placeLetter handleLetterClick
    simp only [hk, if_true]
    unfold poolInv at hinv ⊢
    dsimp only
    rw [occupied_set_some s.placedLetters k _ hklt hknone]
    have hlen := length_eraseIdx_lt s.availableLetters i hi
    omega
  | remove i =>
    simp only [validOp, Bool.and_eq_true, decide_eq_true_eq] at hv
    obtain ⟨hi, hsome⟩ := hv
    obtain ⟨c, hc⟩ := Option.isSome_iff_exists.mp hsome
    show poolInv (checkCompletion (removeLetter s i)).1
    rw [poolInv_checkCompletion]
    unfold removeLetter
    rw [hc]
    unfold handleLetterClick
    simp only [Bool.false_eq_true, if_false]
    unfold poolInv at hinv ⊢
    simp only [List.length_append, List.length_cons, List.length_nil]
    have := occupied_set_none s.placedLetters i c hi hc
    omega

theorem validSeq_poolInv (ops : List Op) : ∀ (s : GameState),
    validSeq s ops = true → poolInv s → poolInv (runOps s ops) := by
  induction ops with
  | nil => intro s _ h; exact h
  | cons op ops ih =>
    intro s hv hinv
    unfold validSeq at hv
    rw [Bool.and_eq_true] at hv
    obtain ⟨h1, h2⟩ := hv
    show poolInv (List.foldl applyOp (applyOp s op) ops)
    exact ih (applyOp s op) h2 (validOp_poolInv s op h1 hinv)

theorem validSeq_of_leading : ∀ (pre : List Op) (ops : List Op) (s : GameState),
    pre <+: ops → validSeq s ops = true → validSeq s pre = true := by
  intro pre
  induction pre with
  | nil => intro ops s _ _; rfl
  | cons p pt ih =>
    intro ops s hpre hv
    obtain ⟨t, ht⟩ := hpre
    subst ht
    have hv2 : (validOp s p && validSeq (applyOp s p) (pt ++ t)) = true := hv
    rw [Bool.and_eq_true] at hv2
    show (validOp s p && validSeq (applyOp s p) pt) = true
    rw [Bool.and_eq_true]
    exact ⟨hv2.1, ih (pt ++ t) (applyOp s p) ⟨t, rfl⟩ hv2.2⟩

theorem poolInv_startState (word : String) (coins : List Bool) :
    poolInv (startState word coins) := by
  unfold startState start
  rw [poolInv_checkCompletion]
  unfold poolInv initState
  simp only
  rw [shuffle_length, occupiedCount_replicate]
  rfl

end LetterBank

namespace LetterBank

theorem all_isSome_of_not_any_isNone (l : List (Option Char)) :
    l.any Option.isNone ≠ true → l.all Option.isSome = true := by
  intro h
  rw [List.all_eq_true]
  intro a ha
  cases a with
  | some c => simp
  | none =>
    exfalso
    exact h (List.any_eq_true.mpr ⟨none, ha, rfl⟩)

/-- C1: for every non-empty target word and every sequence of valid
placeLetter/removeLetter calls (a place names a tile currently in the bank
while an empty slot exists; a remove names a slot currently holding a
letter), after every call the number of letters in the tile pool plus the
number of occupied slots equals the length of the target word. -/
theorem C1_invariant_after_every_call (word : String) (coins : List Bool)
    (ops pre : List Op) (hw : word.length > 0)
    (hv : validSeq (startState word coins) ops = true)
    (hpre : pre <+: ops) :
    poolInv (runOps (startState word coins) pre) :=
  validSeq_poolInv pre (startState word coins)
    (validSeq_of_leading pre ops (startState word coins) hpre hv)
    (poolInv_startState word coins)

/-- Witness for C1: word "ab", the valid call sequence place 0 then
remove 0, checked after its first call. -/
theorem C1_invariant_after_every_call_witness :
    ("ab" : String).length > 0
      ∧ validSeq (startState "ab" []) [Op.place 0, Op.remove 0] = true
      ∧ [Op.place 0] <+: [Op.place 0, Op.remove 0]
      ∧ poolInv (runOps (startState "ab" []) [Op.place 0]) :=
  ⟨by decide, by decide, by decide,
    C1_invariant_after_every_call "ab" [] [Op.place 0, Op.remove 0]
      [Op.place 0] (by decide) (by decide) (by decide)⟩

/-- C2: with every slot filled, the validation effect emits a completion
signal that is true exactly when the slot characters joined in slot order
and lower-cased are character for character equal to the lower-cased target
word (embedded spaces included, no partial credit). -/
theorem C2_validator_exact_case_insensitive (target : String)
    (pool : List Char) (slots : List (Option Char)) (c1 c2 : Bool)
    (hfull : slots.all Option.isSome = true) :
    (checkCompletion ⟨target, pool, slots, c1, c2⟩).2 = some true
      ↔ (slots.filterMap id).map Char.toLower
          = target.data.map Char.toLower := by
  unfold checkCompletion
  simp only [hfull, if_true]
  rw [Option.some.injEq]
  rw [show ((toLowerCase (String.mk (slots.filterMap id))
      == toLowerCase target) = true)
      ↔ toLowerCase (String.mk (slots.filterMap id)) = toLowerCase target
    from beq_iff_eq]
  unfold toLowerCase
  rw [String.ext_iff]

/-- Witness for C2: target "Tree" with slots t, r, e, e validates true. -/
theorem C2_validator_exact_case_insensitive_witness :
    ([some 't', some 'r', some 'e', some 'e'] : List (Option Char)).all
        Option.isSome = true
      ∧ (checkCompletion
          ⟨"Tree", [], [some 't', some 'r', some 'e', some 'e'],
            false, false⟩).2 = some true :=
  ⟨by decide,
    (C2_validator_exact_case_insensitive "Tree" []
      [some 't', some 'r', some 'e', some 'e'] false false
      (by decide)).mpr (by decide)⟩

/-- C3 counterexample: the claim says start of an empty target word remains
Idle, surfaces an InvalidTargetWord error and never produces a completion
signal; on the code, mounting with the empty word immediately emits the
completion signal with value true. -/
theorem C3_empty_word_counterexample :
    (start "" []).2 = some true := by decide

/-- C3 amended: there is no empty-word guard; with an empty target word the
slot array is empty, the validation effect finds all (zero) slots filled
and, for every random stream, immediately emits a completion signal with
isCorrect true instead of refusing to start. -/
theorem C3_empty_word_completes (coins : List Bool) :
    (start "" coins).2 = some true
      ∧ (start "" coins).1.isComplete = true
      ∧ (start "" coins).1.isCorrect = true :=
  ⟨rfl, rfl, rfl⟩

end LetterBank

namespace LetterBank

/-- C4 counterexample: the claim says a placeLetter call with an
out-of-range tile reference is a no-op (or an explicit error) and never
corrupts the invariant; on the code, in a state satisfying the invariant,
placing with bank index 5 while an empty slot exists fills the slot without
removing any bank tile, so the invariant fails afterwards. -/
theorem C4_out_of_range_place_counterexample :
    poolInv ⟨"ab", ['a', 'b'], [none, none], false, false⟩
      ∧ ¬ poolInv (placeLetter ⟨"ab", ['a', 'b'], [none, none], false, false⟩ 5) := by
  constructor <;> decide

/-- C4 amended: a placeLetter call with no empty slot remaining is a no-op
and the invariant still holds afterwards, and a placeLetter call with an
in-range bank index also preserves the invariant; only a call with an
out-of-range bank index while an empty slot exists corrupts it. -/
theorem C4_place_error_policy (s : GameState) (i : Nat) (hinv : poolInv s) :
    (findIndexNone s.placedLetters = none → placeLetter s i = s)
      ∧ (i < s.availableLetters.length → poolInv (placeLetter s i)) := by
  constructor
  · intro hnone
    unfold placeLetter handleLetterClick
    simp [hnone]
  · intro hi
    by_cases hany : s.placedLetters.any Option.isNone = true
    · have h := validOp_poolInv s (.place i)
        (by simp [validOp, hi, hany]) hinv
      exact (poolInv_checkCompletion (placeLetter s i)).mp h
    · have hall := all_isSome_of_not_any_isNone s.placedLetters hany
      have hnone := findIndexNone_eq_none_of_all s.placedLetters hall
      unfold placeLetter handleLetterClick
      simpa [hnone] using hinv

/-- Witness for C4: a state with the single slot occupied and one tile in
the bank, so the no-slot branch and the in-range branch both apply. -/
theorem C4_place_error_policy_witness :
    poolInv (⟨"ab", ['a'], [some 'b'], false, false⟩ : GameState)
      ∧ ((findIndexNone (GameState.placedLetters
            ⟨"ab", ['a'], [some 'b'], false, false⟩) = none →
          placeLetter ⟨"ab", ['a'], [some 'b'], false, false⟩ 0
            = ⟨"ab", ['a'], [some 'b'], false, false⟩)
        ∧ (0 < (GameState.availableLetters
            ⟨"ab", ['a'], [some 'b'], false, false⟩).length →
          poolInv (placeLetter ⟨"ab", ['a'], [some 'b'], false, false⟩ 0))) :=
  ⟨by decide, C4_place_error_policy ⟨"ab", ['a'], [some 'b'], false, false⟩ 0 (by decide)⟩

/-- C5 counterexample: the claim says that once Solved no further
mutation of slots or pool is possible except reset; on the code, after
solving target "a", a remove call on slot 0 still changes the slots. -/
theorem C5_solved_mutation_counterexample :
    (runOps (startState "a" []) [Op.place 0]).isComplete = true
      ∧ (runOps (startState "a" []) [Op.place 0]).isCorrect = true
      ∧ (applyOp (runOps (startState "a" []) [Op.place 0])
            (Op.remove 0)).placedLetters
          ≠ (runOps (startState "a" []) [Op.place 0]).placedLetters := by
  refine ⟨?_, ?_, ?_⟩ <;> decide

/-- C5 amended: in a Solved state (every slot filled, bank empty) place
calls leave the state unchanged since the bank is empty, but a remove call
on any slot still mutates the state: it clears that slot and moves its
letter into the bank; the game is not locked after Solved. -/
theorem C5_solved_not_locked (s : GameState) (i j : Nat)
    (hfull : s.placedLetters.all Option.isSome = true)
    (hpool : s.availableLetters = [])
    (hi : i < s.placedLetters.length) :
    placeLetter s j = s
      ∧ (removeLetter s i).placedLetters = s.placedLetters.set i none
      ∧ (removeLetter s i).placedLetters.getD i none = none
      ∧ s.placedLetters.getD i none ≠ none
      ∧ ∃ c, (removeLetter s i).availableLetters = [c] := by
  have hnone := findIndexNone_eq_none_of_all s.placedLetters hfull
  have hsome := getD_isSome_of_all s.placedLetters hfull i hi
  obtain ⟨c, hc⟩ := Option.isSome_iff_exists.mp hsome
  have hplace : placeLetter s j = s := by
    unfold placeLetter handleLetterClick
    simp [hnone]
  have hrem : removeLetter s i
      = { s with placedLetters := s.placedLetters.set i none,
                 availableLetters := s.availableLetters ++ [c] } := by
    unfold removeLetter
    rw [hc]
    unfold handleLetterClick
    simp
  refine ⟨hplace, by rw [hrem], ?_, ?_, ?_⟩
  · rw [hrem]
    exact getD_set_self s.placedLetters i none hi
  · rw [hc]
    simp
  · exact ⟨c, by rw [hrem, hpool]; rfl⟩

/-- Witness for C5: the Solved state reached by solving target "a". -/
theorem C5_solved_not_locked_witness :
    (runOps (startState "a" []) [Op.place 0]).placedLetters.all
        Option.isSome = true
      ∧ (runOps (startState "a" []) [Op.place 0]).availableLetters = []
      ∧ 0 < (runOps (startState "a" []) [Op.place 0]).placedLetters.length
      ∧ (placeLetter (runOps (startState "a" []) [Op.place 0]) 0
            = runOps (startState "a" []) [Op.place 0]
          ∧ (removeLetter (runOps (startState "a" []) [Op.place 0])
                0).placedLetters
              = (runOps (startState "a" []) [Op.place 0]).placedLetters.set 0 none
          ∧ (removeLetter (runOps (startState "a" []) [Op.place 0])
                0).placedLetters.getD 0 none = none
          ∧ (runOps (startState "a" []) [Op.place 0]).placedLetters.getD 0 none
              ≠ none
          ∧ ∃ c, (removeLetter (runOps (startState "a" []) [Op.place 0])
                0).availableLetters = [c]) :=
  ⟨by decide, by decide, by decide,
    C5_solved_not_locked (runOps (startState "a" []) [Op.place 0]) 0 0
      (by decide) (by decide) (by decide)⟩

/-- C6: from any state with a tile at bank index i and a first empty slot
at index k, placing that tile and then removing it from the slot it landed
in returns the tile pool to a state equal as a multiset of characters to
the pool before the placement. -/
theorem C6_round_trip_multiset (s : GameState) (i k : Nat)
    (hi : i < s.availableLetters.length)
    (hk : findIndexNone s.placedLetters = some k) :
    ((runOps s [Op.place i, Op.remove k]).availableLetters : Multiset Char)
      = (s.availableLetters : Multiset Char) := by
  obtain ⟨hklt, hknone⟩ := findIndexNone_spec s.placedLetters k hk
  have hs1 : placeLetter s i
      = { s with
          placedLetters := s.placedLetters.set k (some (s.availableLetters.getD i ' ')),
          availableLetters := s.availableLetters.eraseIdx i } := by
    unfold placeLetter handleLetterClick
    simp [hk]
  have hslots : (checkCompletion (placeLetter s i)).1.placedLetters
      = s.placedLetters.set k (some (s.availableLetters.getD i ' ')) := by
    rw [checkCompletion_fst_placedLetters, hs1]
  have hpool1 : (checkCompletion (placeLetter s i)).1.availableLetters
      = s.availableLetters.eraseIdx i := by
    rw [checkCompletion_fst_availableLetters, hs1]
  have hget : (checkCompletion (placeLetter s i)).1.placedLetters.getD k none
      = some (s.availableLetters.getD i ' ') := by
    rw [hslots]
    exact getD_set_self s.placedLetters k _ hklt
  have hrem : removeLetter (checkCompletion (placeLetter s i)).1 k
      = { (checkCompletion (placeLetter s i)).1 with
          placedLetters := (checkCompletion (placeLetter s i)).1.placedLetters.set k none,
          availableLetters := (checkCompletion (placeLetter s i)).1.availableLetters
            ++ [s.availableLetters.getD i ' '] } := by
    unfold removeLetter
    rw [hget]
    unfold handleLetterClick
    simp
  have hfinal : (runOps s [Op.place i, Op.remove k]).availableLetters
      = s.availableLetters.eraseIdx i ++ [s.availableLetters.getD i ' '] := by
    show (checkCompletion (removeLetter (checkCompletion (placeLetter s i)).1 k)).1.availableLetters = _
    rw [checkCompletion_fst_availableLetters, hrem]
    dsimp only
    rw [hpool1]
  rw [hfinal]
  exact Multiset.coe_eq_coe.mpr
    (eraseIdx_append_getD_perm s.availableLetters i hi)

/-- Witness for C6: two tiles in the bank, two empty slots, round-trip of
the tile at bank index 0 through slot 0. -/
theorem C6_round_trip_multiset_witness :
    0 < (GameState.availableLetters
        ⟨"ab", ['a', 'b'], [none, none], false, false⟩).length
      ∧ findIndexNone (GameState.placedLetters
          ⟨"ab", ['a', 'b'], [none, none], false, false⟩) = some 0
      ∧ ((runOps ⟨"ab", ['a', 'b'], [none, none], false, false⟩
            [Op.place 0, Op.remove 0]).availableLetters : Multiset Char)
          = ((GameState.availableLetters
              ⟨"ab", ['a', 'b'], [none, none], false, false⟩ : List Char) : Multiset Char) :=
  ⟨by decide, by decide,
    C6_round_trip_multiset ⟨"ab", ['a', 'b'], [none, none], false, false⟩ 0 0
      (by decide) (by decide)⟩

end LetterBank

namespace LetterBank

/-- C7: reset is callable from any state and always yields all slots
empty, a full tile pool that is a permutation of the target word
characters, and both completion flags cleared (the Placing state); calling
reset twice in a row is observably the same (slots, pool as a multiset,
flags) as calling it once, whatever the previous state was. -/
theorem C7_reset_canonical_idempotent (s : GameState) (r1 r2 : List Bool) :
    (handleReset s r1).placedLetters = List.replicate s.targetWord.length none
      ∧ ((handleReset s r1).availableLetters : Multiset Char)
          = (s.targetWord.data : Multiset Char)
      ∧ (handleReset s r1).isComplete = false
      ∧ (handleReset s r1).isCorrect = false
      ∧ obsEq (handleReset (handleReset s r1) r2) (handleReset s r1) := by
  refine ⟨rfl, Multiset.coe_eq_coe.mpr (shuffle_perm_source _ _), rfl, rfl, ?_⟩
  refine ⟨rfl, ?_, rfl, rfl⟩
  exact Multiset.coe_eq_coe.mpr
    ((shuffle_perm_source s.targetWord.data r2).trans
      (shuffle_perm_source s.targetWord.data r1).symm)

/-- C8: the Shuffler produces a tile pool that is a permutation of the
characters of the word: same length and multiset-equal to the character
sequence of the word, for every random stream. -/
theorem C8_shuffler_permutation (word : String) (coins : List Bool)
    (hw : word ≠ "") :
    (shuffle word.data coins).length = word.length
      ∧ ((shuffle word.data coins) : Multiset Char)
          = (word.data : Multiset Char) :=
  ⟨shuffle_length word.data coins,
    Multiset.coe_eq_coe.mpr (shuffle_perm_source word.data coins)⟩

/-- Witness for C8 at word "ab" with one coin flip. -/
theorem C8_shuffler_permutation_witness :
    ("ab" : String) ≠ ""
      ∧ ((shuffle ("ab" : String).data [true]).length = ("ab" : String).length
        ∧ ((shuffle ("ab" : String).data [true]) : Multiset Char)
            = ((("ab" : String).data : List Char) : Multiset Char)) :=
  ⟨by decide, C8_shuffler_permutation "ab" [true] (by decide)⟩

/-- C9 counterexample: the claim says a removed letter returns to its
specific origin position in the pool; on the code, placing the tile at bank
index 0 of the pool a, b and then removing it appends it to the end, so the
pool becomes b, a instead of returning to the original a, b. -/
theorem C9_no_origin_position_counterexample :
    (removeLetter (placeLetter
        ⟨"ab", ['a', 'b'], [none, none], false, false⟩ 0) 0).availableLetters
      = ['b', 'a']
      ∧ (removeLetter (placeLetter
          ⟨"ab", ['a', 'b'], [none, none], false, false⟩ 0) 0).availableLetters
        ≠ (GameState.availableLetters
            ⟨"ab", ['a', 'b'], [none, none], false, false⟩) := by
  constructor <;> decide

/-- C9 amended: tiles carry no origin tags (the pool is a plain character
list), and removing a placed letter appends that letter to the end of the
pool, not to a remembered origin position. -/
theorem C9_remove_appends_to_end (s : GameState) (i : Nat) (c : Char)
    (hc : s.placedLetters.getD i none = some c) :
    (removeLetter s i).availableLetters = s.availableLetters ++ [c]
      ∧ (removeLetter s i).placedLetters = s.placedLetters.set i none := by
  unfold removeLetter
  rw [hc]
  unfold handleLetterClick
  simp

/-- Witness for C9: removing the letter a from slot 0. -/
theorem C9_remove_appends_to_end_witness :
    (GameState.placedLetters ⟨"a", [], [some 'a'], true, true⟩).getD 0 none
        = some 'a'
      ∧ ((removeLetter ⟨"a", [], [some 'a'], true, true⟩ 0).availableLetters
          = GameState.availableLetters ⟨"a", [], [some 'a'], true, true⟩ ++ ['a']
        ∧ (removeLetter ⟨"a", [], [some 'a'], true, true⟩ 0).placedLetters
          = (GameState.placedLetters ⟨"a", [], [some 'a'], true, true⟩).set 0 none) :=
  ⟨by decide,
    C9_remove_appends_to_end ⟨"a", [], [some 'a'], true, true⟩ 0 'a' (by decide)⟩

/-- C10: a place call writes exactly the lowest-index empty slot (slot k,
the first empty one: every slot before it is occupied), a remove call
clears exactly the named occupied slot, every other slot keeps its
contents, and the slot array keeps length equal to the length of the
target word under place, remove and reset. -/
theorem C10_frame_effects (s : GameState) (b j k m n q : Nat)
    (coins : List Bool)
    (hk : findIndexNone s.placedLetters = some k)
    (hj : j < s.placedLetters.length)
    (hocc : (s.placedLetters.getD j none).isSome = true)
    (hm : m ≠ k) (hn : n ≠ j) (hq : q < k) :
    (placeLetter s b).placedLetters
        = s.placedLetters.set k (some (s.availableLetters.getD b ' '))
      ∧ s.placedLetters.getD k none = none
      ∧ (s.placedLetters.getD q none).isSome = true
      ∧ (placeLetter s b).placedLetters.getD m none
          = s.placedLetters.getD m none
      ∧ (placeLetter s b).placedLetters.length = s.placedLetters.length
      ∧ (removeLetter s j).placedLetters = s.placedLetters.set j none
      ∧ (removeLetter s j).placedLetters.getD n none
          = s.placedLetters.getD n none
      ∧ (removeLetter s j).placedLetters.length = s.placedLetters.length
      ∧ (handleReset s coins).placedLetters.length = s.targetWord.length := by
  obtain ⟨hklt, hknone⟩ := findIndexNone_spec s.placedLetters k hk
  obtain ⟨c, hc⟩ := Option.isSome_iff_exists.mp hocc
  have hplace : (placeLetter s b).placedLetters
      = s.placedLetters.set k (some (s.availableLetters.getD b ' ')) := by
    unfold placeLetter handleLetterClick
    simp [hk]
  have hrem : (removeLetter s j).placedLetters
      = s.placedLetters.set j none := by
    unfold removeLetter
    rw [hc]
    unfold handleLetterClick
    simp
  refine ⟨hplace, hknone, findIndexNone_min s.placedLetters k hk q hq,
    ?_, ?_, hrem, ?_, ?_, ?_⟩
  · rw [hplace]
    exact getD_set_ne s.placedLetters k m _ (Ne.symm hm)
  · rw [hplace]
    exact List.length_set s.placedLetters k _
  · rw [hrem]
    exact getD_set_ne s.placedLetters j n none (Ne.symm hn)
  · rw [hrem]
    exact List.length_set s.placedLetters j none
  · simp [handleReset]

/-- Witness for C10: target "abc", bank tile b at index 0, first empty
slot at index 1, remove of the occupied slot 2, frame slots 0. -/
theorem C10_frame_effects_witness :
    findIndexNone (GameState.placedLetters
        ⟨"abc", ['b'], [some 'a', none, some 'c'], false, false⟩) = some 1
      ∧ 2 < (GameState.placedLetters
          ⟨"abc", ['b'], [some 'a', none, some 'c'], false, false⟩).length
      ∧ ((GameState.placedLetters
          ⟨"abc", ['b'], [some 'a', none, some 'c'], false, false⟩).getD 2
            none).isSome = true
      ∧ (0 : Nat) ≠ 1 ∧ (0 : Nat) ≠ 2 ∧ (0 : Nat) < 1
      ∧ ((placeLetter ⟨"abc", ['b'], [some 'a', none, some 'c'], false, false⟩
            0).placedLetters
          = (GameState.placedLetters
              ⟨"abc", ['b'], [some 'a', none, some 'c'], false, false⟩).set 1
            (some ((GameState.availableLetters
              ⟨"abc", ['b'], [some 'a', none, some 'c'], false, false⟩).getD 0 ' '))
        ∧ (GameState.placedLetters
            ⟨"abc", ['b'], [some 'a', none, some 'c'], false, false⟩).getD 1 none
          = none
        ∧ ((GameState.placedLetters
            ⟨"abc", ['b'], [some 'a', none, some 'c'], false, false⟩).getD 0
              none).isSome = true
        ∧ (placeLetter ⟨"abc", ['b'], [some 'a', none, some 'c'], false, false⟩
              0).placedLetters.getD 0 none
          = (GameState.placedLetters
              ⟨"abc", ['b'], [some 'a', none, some 'c'], false, false⟩).getD 0 none
        ∧ (placeLetter ⟨"abc", ['b'], [some 'a', none, some 'c'], false, false⟩
              0).placedLetters.length
          = (GameState.placedLetters
              ⟨"abc", ['b'], [some 'a', none, some 'c'], false, false⟩).length
        ∧ (removeLetter ⟨"abc", ['b'], [some 'a', none, some 'c'], false, false⟩
              2).placedLetters
          = (GameState.placedLetters
              ⟨"abc", ['b'], [some 'a', none, some 'c'], false, false⟩).set 2 none
        ∧ (removeLetter ⟨"abc", ['b'], [some 'a', none, some 'c'], false, false⟩
              2).placedLetters.getD 0 none
          = (GameState.placedLetters
              ⟨"abc", ['b'], [some 'a', none, some 'c'], false, false⟩).getD 0 none
        ∧ (removeLetter ⟨"abc", ['b'], [some 'a', none, some 'c'], false, false⟩
              2).placedLetters.length
          = (GameState.placedLetters
              ⟨"abc", ['b'], [some 'a', none, some 'c'], false, false⟩).length
        ∧ (handleReset ⟨"abc", ['b'], [some 'a', none, some 'c'], false, false⟩
              []).placedLetters.length
          = (GameState.targetWord
              ⟨"abc", ['b'], [some 'a', none, some 'c'], false, false⟩).length) :=
  ⟨by decide, by decide, by decide, by decide, by decide, by decide,
    C10_frame_effects ⟨"abc", ['b'], [some 'a', none, some 'c'], false, false⟩
      0 2 1 0 0 0 [] (by decide) (by decide) (by decide) (by decide)
      (by decide) (by decide)⟩

end LetterBank
